import Mathlib

/-!
Verification development for the unison-fsmonitor filesystem-change monitor
(src/main.rs). The Rust program is shallowly embedded: paths are component
lists, the replica registry is an association list (HashMap with keys unique
by construction; HashSet is a duplicate-free insertion-ordered list), the
percent codec works on byte lists, and the dispatcher is a pure step function
from a monitor state and one event to a result carrying the successor state,
the lines written to stdout, and the watcher calls made.
-/

set_option maxRecDepth 4096

/-- Value of a hexadecimal digit byte, accepting both cases, as in
char::to_digit(16) used by percent_decode (src/main.rs line 16). -/
def hexVal (b : Nat) : Option Nat :=
  if 48 ≤ b ∧ b ≤ 57 then some (b - 48)
  else if 65 ≤ b ∧ b ≤ 70 then some (b - 55)
  else if 97 ≤ b ∧ b ≤ 102 then some (b - 87)
  else none

/-- Uppercase hexadecimal digit for a value below 16, as produced by the
percent encoder formatting with 02X. -/
def hexDigitU (n : Nat) : Nat := if n < 10 then 48 + n else 55 + n

/-- Encoding of one byte under percent_encoding::SIMPLE_ENCODE_SET
(src/main.rs line 12): a byte is escaped as percent plus two uppercase hex
digits exactly when it is below 0x20 or above 0x7E; every other byte,
including space 0x20 and percent 0x25, passes through unchanged. -/
def encodeByte (b : Nat) : List Nat :=
  if b < 32 ∨ 126 < b then [37, hexDigitU (b / 16), hexDigitU (b % 16)] else [b]

/-- Byte-level model of encode (src/main.rs lines 11 to 13):
utf8_percent_encode with SIMPLE_ENCODE_SET applied to the UTF-8 bytes. -/
def encodeBytes (bs : List Nat) : List Nat :=
  bs.foldr (fun b acc => encodeByte b ++ acc) []

/-- Byte-level model of percent_decode (src/main.rs lines 15 to 17): a
percent byte followed by two hex digits yields the denoted byte; a percent
byte not followed by two hex digits is passed through literally without
consuming the following bytes, exactly as in percent_encoding 1.x. -/
def decodeBytes : List Nat → List Nat
  | [] => []
  | 37 :: a :: b :: rest2 =>
    match hexVal a, hexVal b with
    | some h, some l => (16 * h + l) :: decodeBytes rest2
    | _, _ => 37 :: decodeBytes (a :: b :: rest2)
  | 37 :: rest => 37 :: decodeBytes rest
  | c :: rest => c :: decodeBytes rest

/-- Code points of a string, used as its bytes. This is exact for ASCII
strings, which is all the wire protocol claims exercise; multi-byte UTF-8
sequences are not reassembled. -/
def strBytes (s : String) : List Nat := s.toList.map Char.toNat

/-- String from a list of code points (inverse of strBytes on ASCII). -/
def strOfBytes (bs : List Nat) : String := String.mk (bs.map Char.ofNat)

/-- String-level encode (src/main.rs lines 11 to 13), exact on ASCII. -/
def encodeStr (s : String) : String := strOfBytes (encodeBytes (strBytes s))

/-- String-level decode (src/main.rs lines 15 to 17), exact on ASCII; the
lossy UTF-8 replacement of invalid sequences is not modelled since no claim
exercises non-ASCII bytes. -/
def decodeStr (s : String) : String := strOfBytes (decodeBytes (strBytes s))

/-- Cut a character list at every separator, keeping empty fragments; the
second argument carries the current fragment reversed. -/
def splitChars (p : Char → Bool) : List Char → List Char → List String
  | [], acc => [String.mk acc.reverse]
  | c :: cs, acc =>
    if p c then String.mk acc.reverse :: splitChars p cs []
    else splitChars p cs (c :: acc)

/-- Model of str::split_whitespace: split at every whitespace character and
drop the empty fragments, so runs of whitespace and leading or trailing
whitespace produce no tokens. -/
def splitWhitespaceM (s : String) : List String :=
  (splitChars (fun c => c.isWhitespace) s.toList []).filter (fun w => w ≠ "")

/-- parse_input (src/main.rs lines 19 to 30): the first whitespace-separated
token is the verb, kept as received; the remaining tokens are the arguments,
each percent-decoded. The Rust function always returns Ok. -/
def parseInput (s : String) : String × List String :=
  match splitWhitespaceM s with
  | [] => ("", [])
  | c :: rest => (c, rest.map decodeStr)

/-- A filesystem path as its list of components; an absolute path begins
with the root component, written as the string slash. PathBuf comparisons,
starts_with and strip_prefix in the source all operate componentwise. -/
abbrev FsPath := List String

/-- FsPath from a string: split on the separator, drop empty components, and
keep a root marker when the string is absolute, mirroring Path::components. -/
def pathFromString (s : String) : FsPath :=
  let parts := (splitChars (fun c => c = '/') s.toList []).filter (fun w => w ≠ "")
  match s.toList with
  | '/' :: _ => "/" :: parts
  | _ => parts

/-- FsPath::join: an absolute right operand replaces the left one, otherwise
the components are appended. -/
def joinP (p q : FsPath) : FsPath := if q.head? = some "/" then q else p ++ q

/-- Join a list of strings with a separator. -/
def joinSep (sep : String) : List String → String
  | [] => ""
  | [x] => x
  | x :: xs => x ++ sep ++ joinSep sep xs

/-- Display form of a path (to_string_lossy), used only on the relative
paths reported by RECURSIVE. -/
def pathToString (p : FsPath) : String :=
  match p with
  | "/" :: rest => "/" ++ joinSep "/" rest
  | _ => joinSep "/" p

/-- HashSet::insert on the insertion-ordered duplicate-free list model. -/
def insertPath (s : List FsPath) (p : FsPath) : List FsPath :=
  if p ∈ s then s else s ++ [p]

/-- HashMap lookup on the association-list model. -/
def lookupA {α β : Type} [DecidableEq α] (k : α) : List (α × β) → Option β
  | [] => none
  | (k2, v) :: rest => if k = k2 then some v else lookupA k rest

/-- Update the value stored at a key, leaving the list unchanged when the
key is absent. -/
def updateA {α β : Type} [DecidableEq α] (k : α) (f : β → β) :
    List (α × β) → List (α × β)
  | [] => []
  | (k2, v) :: rest =>
    if k = k2 then (k2, f v) :: rest else (k2, v) :: updateA k f rest

/-- Replica (src/main.rs lines 60 to 67): the root supplied by the first
START, the set of watched paths, and the set of pending relative changes. -/
structure Replica where
  root : FsPath
  paths : List FsPath
  pending_changes : List FsPath
deriving DecidableEq, Repr

/-- Replica::is_watching (src/main.rs lines 79 to 81): some watched path is
a componentwise prefix of the queried path. -/
def Replica.is_watching (rep : Replica) (p : FsPath) : Bool :=
  rep.paths.any (fun base => List.isPrefixOf base p)

/-- Monitor state (src/main.rs lines 84 to 90): the current subtree carried
between START and LINK, the replica registry, and the link map. The watcher
and writer are externalized: writes and watch calls appear in the step
result. -/
structure Monitor where
  current_path : FsPath
  replicas : List (String × Replica)
  link_map : List (FsPath × List FsPath)
deriving DecidableEq, Repr

/-- Monitor::is_watching (src/main.rs lines 103 to 107). -/
def Monitor.is_watching (m : Monitor) (p : FsPath) : Bool :=
  m.replicas.any (fun pr => pr.2.is_watching p)

/-- Monitor::new (src/main.rs lines 93 to 101): empty current path, no
replicas, empty link map. -/
def initMonitor : Monitor := { current_path := [], replicas := [], link_map := [] }

/-- One call made to the Watch capability during a step. -/
inductive WatchCall where
  | watch (p : FsPath)
  | unwatch (p : FsPath)
deriving DecidableEq, Repr

/-- Outcome of dispatching one event. next means handle_event returned Ok
and the loop continues. errExit is send_error (src/main.rs lines 272 to
275): the ERROR line is written and the process exits with status 1.
propErr is an Err walking out of handle_event (a bail or a failed
canonicalize): main returns the error and the process exits with status 1
without writing an ERROR line. panicked is an out-of-bounds args index: the
main thread panics and the process aborts without writing anything. -/
inductive StepResult where
  | next (m : Monitor) (out : List String) (calls : List WatchCall)
  | errExit (out : List String) (calls : List WatchCall)
  | propErr (out : List String) (calls : List WatchCall)
  | panicked (out : List String) (calls : List WatchCall)
deriving DecidableEq, Repr

/-- send_cmd (src/main.rs lines 245 to 254): the verb followed by one
space-separated percent-encoded argument each. -/
def sendCmd (cmd : String) (args : List String) : String :=
  args.foldl (fun acc a => acc ++ " " ++ encodeStr a) cmd

/-- VERSION arm (src/main.rs lines 117 to 124): panics when no argument is
present; bails on a version other than 1; otherwise replies VERSION 1. -/
def handleVersion (m : Monitor) (args : List String) : StepResult :=
  match args with
  | [] => .panicked [] []
  | v :: _ =>
    if v = "1" then .next m [sendCmd "VERSION" ["1"]] [] else .propErr [] []

/-- The effective current subtree set by START (src/main.rs lines 131 to
136): the decoded root joined with the optional subdir argument. -/
def startCurrent (rootStr : String) (rest : List String) : FsPath :=
  match rest.head? with
  | some d => joinP (pathFromString rootStr) (pathFromString d)
  | none => pathFromString rootStr

/-- START arm (src/main.rs lines 125 to 151): panics without two arguments;
sets the current subtree to the root joined with the optional subdir; gets
or inserts the replica keyed by id, keeping the existing root on reuse; and
when no watched path of that replica is a prefix of the current subtree,
calls watch on it and inserts it. A freshly inserted replica has an empty
watched set, so the first START always watches; the two cases are written
out below. -/
def handleStart (m : Monitor) (args : List String) : StepResult :=
  match args with
  | id :: rootStr :: rest =>
    match lookupA id m.replicas with
    | none =>
      .next
        { m with
          current_path := startCurrent rootStr rest,
          replicas := m.replicas ++
            [(id, { root := pathFromString rootStr,
                    paths := [startCurrent rootStr rest], pending_changes := [] })] }
        [sendCmd "OK" []] [WatchCall.watch (startCurrent rootStr rest)]
    | some rep =>
      if rep.is_watching (startCurrent rootStr rest) then
        .next { m with current_path := startCurrent rootStr rest } [sendCmd "OK" []] []
      else
        .next
          { m with
            current_path := startCurrent rootStr rest,
            replicas := updateA id
              (fun r => { r with paths := insertPath r.paths (startCurrent rootStr rest) })
              m.replicas }
          [sendCmd "OK" []] [WatchCall.watch (startCurrent rootStr rest)]
  | _ => .panicked [] []

/-- Insertion into the link map: entry(realpath).or_default().insert(path)
(src/main.rs line 164). -/
def linkInsert (lm : List (FsPath × List FsPath)) (rp p : FsPath) :
    List (FsPath × List FsPath) :=
  match lookupA rp lm with
  | some _ => updateA rp (fun links => insertPath links p) lm
  | none => lm ++ [(rp, [p])]

/-- LINK arm (src/main.rs lines 156 to 167): join the optional argument,
defaulting to empty, onto the current subtree; canonicalize, propagating
failure; watch the real path and record the alias. The canonicalize system
call is supplied as the function argument canon. -/
def handleLink (canon : FsPath → Option FsPath) (m : Monitor) (args : List String) :
    StepResult :=
  match canon (joinP m.current_path (pathFromString (args.headD ""))) with
  | none => .propErr [] []
  | some rp =>
    .next { m with link_map := linkInsert m.link_map rp (joinP m.current_path (pathFromString (args.headD ""))) }
      [sendCmd "OK" []] [WatchCall.watch rp]

/-- WAIT arm (src/main.rs lines 168 to 174): panics without an argument;
sends the unknown-replica error and exits when the id is not registered;
otherwise does nothing and sends nothing. -/
def handleWait (m : Monitor) (args : List String) : StepResult :=
  match args with
  | [] => .panicked [] []
  | id :: _ =>
    if lookupA id m.replicas = none then
      .errExit [sendCmd "ERROR" ["Unknown replica: " ++ id]] []
    else .next m [] []

/-- CHANGES arm (src/main.rs lines 175 to 186): panics without an argument;
drains the pending set of the named replica when it exists, sending one
RECURSIVE line per drained path; always ends with DONE. An unknown id
drains nothing and is not an error. -/
def handleChanges (m : Monitor) (args : List String) : StepResult :=
  match args with
  | [] => .panicked [] []
  | id :: _ =>
    .next
      { m with
        replicas := updateA id (fun r => { r with pending_changes := [] }) m.replicas }
      ((((lookupA id m.replicas).map Replica.pending_changes).getD []).map
        (fun p => sendCmd "RECURSIVE" [pathToString p]) ++ [sendCmd "DONE" []])
      []

/-- The registry after removing one replica id (HashMap::remove in
src/main.rs line 190; keys are unique by construction). -/
def resetRemaining (m : Monitor) (id : String) : Monitor :=
  { m with replicas := m.replicas.filter (fun pr => !(pr.1 == id)) }

/-- RESET arm (src/main.rs lines 187 to 198): panics without an argument;
removes the replica when present and unwatches each of its paths that no
remaining replica is watching. Sends nothing. -/
def handleReset (m : Monitor) (args : List String) : StepResult :=
  match args with
  | [] => .panicked [] []
  | id :: _ =>
    match lookupA id m.replicas with
    | none => .next m [] []
    | some rep =>
      .next (resetRemaining m id) []
        ((rep.paths.filter (fun p => !((resetRemaining m id).is_watching p))).map
          WatchCall.unwatch)

/-- Input dispatch (src/main.rs lines 116 to 205), a chain of verb
comparisons as in the Rust match on the command string; DEBUG and DONE are
no-ops and any other verb is the fatal unrecognized-command error. -/
def handleCmd (canon : FsPath → Option FsPath) (m : Monitor) (cmd : String)
    (args : List String) : StepResult :=
  match cmd with
  | "VERSION" => handleVersion m args
  | "START" => handleStart m args
  | "DIR" => .next m [sendCmd "OK" []] []
  | "LINK" => handleLink canon m args
  | "WAIT" => handleWait m args
  | "CHANGES" => handleChanges m args
  | "RESET" => handleReset m args
  | "DEBUG" => .next m [] []
  | "DONE" => .next m [] []
  | _ => .errExit [sendCmd "ERROR" ["Unrecognized cmd: " ++ cmd]] []

/-- Accumulate the candidate paths of one filesystem event against one
replica (inner loop of src/main.rs lines 221 to 229): each candidate with
the replica root as a prefix adds its relative remainder to the pending set
and marks the replica as matched. -/
def applyCands (root : FsPath) (cands : List FsPath) (pend0 : List FsPath) :
    List FsPath × Bool :=
  cands.foldl
    (fun st c =>
      if List.isPrefixOf root c then (insertPath st.1 (c.drop root.length), true)
      else st)
    (pend0, false)

/-- Per-replica effect of one filesystem event: updated entry plus the
matched flag. -/
def fsProcess (cands : List FsPath) (pr : String × Replica) : (String × Replica) × Bool :=
  let res := applyCands pr.2.root cands pr.2.pending_changes
  ((pr.1, { pr.2 with pending_changes := res.1 }), res.2)

/-- Candidate paths of one filesystem event (src/main.rs lines 211 to 219):
the event path followed by, for every link-map entry whose real path is a
prefix of it, each alias joined with the remainder. -/
def fsCands (m : Monitor) (p : FsPath) : List FsPath :=
  p :: m.link_map.foldr
    (fun rl acc =>
      (if List.isPrefixOf rl.1 p then rl.2.map (fun l => joinP l (p.drop rl.1.length))
       else []) ++ acc)
    []

/-- Filesystem event arm (src/main.rs lines 207 to 239): an event without a
path is ignored; otherwise every replica whose root prefixes a candidate
accumulates the relative remainder in its pending set, and one CHANGES line
is sent per matched replica, in registry order here where the source
iterates a HashSet. -/
def handleFs (m : Monitor) (p? : Option FsPath) : StepResult :=
  match p? with
  | none => .next m [] []
  | some p =>
    .next { m with replicas := (m.replicas.map (fsProcess (fsCands m p))).map Prod.fst }
      ((((m.replicas.map (fsProcess (fsCands m p))).filter (fun x => x.2)).map
          (fun x => x.1.1)).map
        (fun id => sendCmd "CHANGES" [id]))
      []

/-- The two event kinds multiplexed onto the dispatcher channel
(src/main.rs lines 32 to 36): an input line and a raw filesystem event
reduced to its optional path, the only field the monitor reads. -/
inductive Event where
  | input (line : String)
  | fsevent (path : Option FsPath)
deriving DecidableEq, Repr

/-- Monitor::handle_event (src/main.rs lines 109 to 243). -/
def handleEvent (canon : FsPath → Option FsPath) (m : Monitor) (e : Event) : StepResult :=
  match e with
  | .input line => handleCmd canon m (parseInput line).1 (parseInput line).2
  | .fsevent p? => handleFs m p?

/-- State of the whole process while draining the event channel: the live
monitor if the process is still running, everything written to stdout, all
watcher calls, and the exit status once terminated. -/
structure RunResult where
  live : Option Monitor
  output : List String
  calls : List WatchCall
  exitCode : Option Nat
deriving DecidableEq, Repr

/-- One iteration of the dispatcher loop in main (src/main.rs lines 518 to
520): a finished process ignores further events; send_error exits with 1; a
propagated Err makes the Fallible main exit with 1; a panic aborts the main
thread, conventionally status 101. -/
def runStep (canon : FsPath → Option FsPath) (r : RunResult) (e : Event) : RunResult :=
  match r.live with
  | none => r
  | some m =>
    match handleEvent canon m e with
    | .next m2 out calls =>
      { live := some m2, output := r.output ++ out, calls := r.calls ++ calls,
        exitCode := none }
    | .errExit out calls =>
      { live := none, output := r.output ++ out, calls := r.calls ++ calls,
        exitCode := some 1 }
    | .propErr out calls =>
      { live := none, output := r.output ++ out, calls := r.calls ++ calls,
        exitCode := some 1 }
    | .panicked out calls =>
      { live := none, output := r.output ++ out, calls := r.calls ++ calls,
        exitCode := some 101 }

/-- The process over a list of dispatched events, from main (src/main.rs
lines 487 to 523): the monitor starts empty and nothing is written to
stdout before the event loop; in particular main performs no write of its
own before consuming events. -/
def runEvents (canon : FsPath → Option FsPath) (events : List Event) : RunResult :=
  events.foldl (runStep canon)
    { live := some initMonitor, output := [], calls := [], exitCode := none }

/-- A canonicalize oracle for concrete runs that never resolves; no claim
script contains a LINK line, so the choice is immaterial. -/
def canonNone : FsPath → Option FsPath := fun _ => none

/-- Modelled from the reader thread in main (src/main.rs lines 500 to 509):
BufRead::read_line at end of file returns Ok(0) and leaves the buffer
empty, so the loop does not terminate; it sends Event::Input of the empty
string to the dispatcher. -/
def eofInput : Event := Event.input ""

/-- The verbs the dispatcher recognizes (src/main.rs lines 116 to 201). -/
def knownCmds : List String :=
  ["VERSION", "START", "DIR", "LINK", "WAIT", "CHANGES", "RESET", "DEBUG", "DONE"]

/-- The monitor state after a first START id r on a state not containing
id: the current subtree and the fresh replica both carry the decoded root. -/
def startFresh (m : Monitor) (id r : String) : Monitor :=
  { m with
    current_path := pathFromString r,
    replicas := m.replicas ++
      [(id,
        { root := pathFromString r, paths := [pathFromString r],
          pending_changes := [] })] }

/-- Boolean form of the watched-paths invariant: every watched path of every
replica has that replica root as a componentwise prefix. -/
def goodPathsB (m : Monitor) : Bool :=
  m.replicas.all (fun pr => pr.2.paths.all (fun p => List.isPrefixOf pr.2.root p))

/-- Propositional form of the watched-paths invariant. -/
def GoodM (m : Monitor) : Prop :=
  ∀ pr ∈ m.replicas, ∀ p ∈ pr.2.paths, List.isPrefixOf pr.2.root p = true

/-- Auxiliary invariant for the induction: every live replica carries the
root assigned to its id by the fixed root table R. -/
def RootsOk (R : List (String × String)) (m : Monitor) : Prop :=
  ∀ pr ∈ m.replicas, (lookupA pr.1 R).map pathFromString = some pr.2.root

/-- Side condition on the arguments of one START line: the root named for
the id agrees with the fixed root table R, and the optional subdir is a
relative path. Argument lists too short to reach the replica code are
allowed since they panic before touching any state. -/
def startArgsOk (R : List (String × String)) (args : List String) : Bool :=
  match args with
  | id :: rootStr :: rest =>
    (lookupA id R == some rootStr) &&
    (match rest.head? with
     | some d => !((pathFromString d).head? == some "/")
     | none => true)
  | _ => true

/-- Side condition on one parsed command: only START lines are constrained. -/
def startOkB (R : List (String × String)) (cmd : String) (args : List String) : Bool :=
  if cmd = "START" then startArgsOk R args else true

/-- Side condition on one dispatched event. -/
def eventOkB (R : List (String × String)) : Event → Bool
  | .input line => startOkB R (parseInput line).1 (parseInput line).2
  | .fsevent _ => true

/-- Scenario with overlapping roots: two replicas, one filesystem event
under both, then one CHANGES query per replica. -/
def c5Script : List Event :=
  [Event.input "START a /x", Event.input "START b /x/y",
   Event.fsevent (some ["/", "x", "y", "z"]),
   Event.input "CHANGES a", Event.input "CHANGES b"]

/-- Re-registration of an existing replica id under a different root. -/
def c6BadTrace : List Event :=
  [Event.input "START a /x", Event.input "START a /y"]

/-- The state reached by c6BadTrace: the replica keeps its first root while
its watched set also holds the unrelated second path. -/
def c6BadState : Monitor :=
  { current_path := ["/", "y"],
    replicas :=
      [("a",
        { root := ["/", "x"], paths := [["/", "x"], ["/", "y"]],
          pending_changes := [] })],
    link_map := [] }

/-- The state reached by a single well-rooted START, used to witness the
amended invariant theorem. -/
def c6WitState : Monitor :=
  { current_path := ["/", "x"],
    replicas :=
      [("a",
        { root := ["/", "x"], paths := [["/", "x"]], pending_changes := [] })],
    link_map := [] }

/-- A monitor with two populated replicas, used to witness the CHANGES
frame theorem. -/
def m10 : Monitor :=
  { current_path := [],
    replicas :=
      [("a", { root := ["/", "x"], paths := [["/", "x"]], pending_changes := [["f"]] }),
       ("b", { root := ["/", "y"], paths := [["/", "y"]], pending_changes := [["g"]] })],
    link_map := [] }

/-- A list is a Boolean prefix of itself appended with anything. -/
theorem isPrefixOf_app {α : Type} [BEq α] [LawfulBEq α] (l t : List α) :
    List.isPrefixOf l (l ++ t) = true := by
  induction l with
  | nil => simp [List.isPrefixOf]
  | cons a l2 ih => simp [List.isPrefixOf, ih]

/-- A list is a Boolean prefix of itself. -/
theorem isPrefixOf_self {α : Type} [BEq α] [LawfulBEq α] (l : List α) :
    List.isPrefixOf l l = true := by
  induction l with
  | nil => simp [List.isPrefixOf]
  | cons a l2 ih => simp [List.isPrefixOf, ih]

/-- Looking up a key appended at the end succeeds when it was absent. -/
theorem lookupA_append_right {α β : Type} [DecidableEq α] (k : α)
    (l : List (α × β)) (v : β) (h : lookupA k l = none) :
    lookupA k (l ++ [(k, v)]) = some v := by
  induction l with
  | nil => simp [lookupA]
  | cons p rest ih =>
    obtain ⟨k2, v2⟩ := p
    by_cases hk : k = k2
    · simp [lookupA, hk] at h
    · simp only [List.cons_append, lookupA, if_neg hk] at h ⊢
      exact ih h

/-- Updating an absent key changes nothing. -/
theorem updateA_eq_of_none {α β : Type} [DecidableEq α] (k : α) (f : β → β)
    (l : List (α × β)) (h : lookupA k l = none) : updateA k f l = l := by
  induction l with
  | nil => rfl
  | cons p rest ih =>
    obtain ⟨k2, v2⟩ := p
    by_cases hk : k = k2
    · simp [lookupA, hk] at h
    · simp only [lookupA, if_neg hk] at h
      simp [updateA, hk, ih h]

/-- Lookup after update at the same key maps the stored value. -/
theorem lookupA_updateA_self {α β : Type} [DecidableEq α] (k : α) (f : β → β)
    (l : List (α × β)) :
    lookupA k (updateA k f l) = (lookupA k l).map f := by
  induction l with
  | nil => rfl
  | cons p rest ih =>
    obtain ⟨k2, v2⟩ := p
    by_cases hk : k = k2
    · simp [updateA, lookupA, hk]
    · simp [updateA, lookupA, hk, ih]

/-- Lookup after update at a different key is unchanged. -/
theorem lookupA_updateA_ne {α β : Type} [DecidableEq α] (j k : α)
    (hjk : j ≠ k) (f : β → β) (l : List (α × β)) :
    lookupA j (updateA k f l) = lookupA j l := by
  induction l with
  | nil => rfl
  | cons p rest ih =>
    obtain ⟨k2, v2⟩ := p
    by_cases hk : k = k2
    · subst hk
      simp [updateA, lookupA, if_neg hjk, ih]
    · by_cases hj : j = k2
      · simp [updateA, lookupA, if_neg hk, hj]
      · simp [updateA, lookupA, if_neg hk, if_neg hj, ih]

/-- Membership after a set insertion comes from the set or is the new
element. -/
theorem mem_insertPath {s : List FsPath} {q p : FsPath}
    (h : p ∈ insertPath s q) : p ∈ s ∨ p = q := by
  unfold insertPath at h
  by_cases hq : q ∈ s
  · rw [if_pos hq] at h
    exact Or.inl h
  · rw [if_neg hq] at h
    rcases List.mem_append.mp h with h2 | h2
    · exact Or.inl h2
    · exact Or.inr (List.mem_singleton.mp h2)

/-- Membership after an update comes from the original list or is the
updated entry of an original value at the key. -/
theorem mem_updateA {α β : Type} [DecidableEq α] {k : α} {f : β → β}
    {l : List (α × β)} {pr : α × β} (h : pr ∈ updateA k f l) :
    pr ∈ l ∨ ∃ v, (k, v) ∈ l ∧ pr = (k, f v) := by
  induction l with
  | nil => simp [updateA] at h
  | cons p rest ih =>
    obtain ⟨k2, v2⟩ := p
    by_cases hk : k = k2
    · subst hk
      simp only [updateA, if_pos rfl] at h
      rcases List.mem_cons.mp h with h2 | h2
      · exact Or.inr ⟨v2, List.mem_cons_self _ _, h2⟩
      · exact Or.inl (List.mem_cons_of_mem _ h2)
    · simp only [updateA, if_neg hk] at h
      rcases List.mem_cons.mp h with h2 | h2
      · exact Or.inl (h2 ▸ List.mem_cons_self _ _)
      · rcases ih h2 with h3 | ⟨v, hv, hpr⟩
        · exact Or.inl (List.mem_cons_of_mem _ h3)
        · exact Or.inr ⟨v, List.mem_cons_of_mem _ hv, hpr⟩

/-- The watched-paths invariant transfers along any map of the registry
that preserves roots and watched sets entrywise. -/
theorem goodM_lift {m m2 : Monitor}
    (h : ∀ pr ∈ m2.replicas,
      ∃ pr0 ∈ m.replicas, pr.2.root = pr0.2.root ∧ pr.2.paths = pr0.2.paths)
    (hg : GoodM m) : GoodM m2 := by
  intro pr hpr p hp
  obtain ⟨pr0, hpr0, hroot, hpaths⟩ := h pr hpr
  rw [hroot]
  exact hg pr0 hpr0 p (hpaths ▸ hp)

/-- The root-table invariant transfers along any map of the registry that
preserves ids and roots entrywise. -/
theorem rootsOk_lift {R : List (String × String)} {m m2 : Monitor}
    (h : ∀ pr ∈ m2.replicas,
      ∃ pr0 ∈ m.replicas, pr.1 = pr0.1 ∧ pr.2.root = pr0.2.root)
    (hr : RootsOk R m) : RootsOk R m2 := by
  intro pr hpr
  obtain ⟨pr0, hpr0, hid, hroot⟩ := h pr hpr
  rw [hid, hroot]
  exact hr pr0 hpr0

/-- C1: the claim says end-of-file shuts the monitor down cleanly with exit
status 0 and no ERROR line. In the code, read_line at end of file returns
Ok(0) with an empty buffer, so the reader thread sends Event::Input of the
empty string; parse_input yields the empty verb, which falls into the
unrecognized-command arm, so the process writes an ERROR line and exits
with status 1 instead. -/
theorem c1_eof_fatal_error :
    runEvents canonNone [eofInput] =
      { live := none, output := ["ERROR Unrecognized cmd: "], calls := [],
        exitCode := some 1 } := by
  decide

/-- C2 counterexample: the claim says VERSION 1 is emitted exactly once at
startup, before any input line is consumed. In the code nothing at all is
written before the event loop, and a process whose first consumed line is a
START command answers it with OK while never emitting VERSION 1. -/
theorem c2_no_version_at_startup :
    (runEvents canonNone []).output = [] ∧
    (runEvents canonNone [Event.input "START 1 /x"]).output = ["OK"] ∧
    "VERSION 1" ∉ (runEvents canonNone [Event.input "START 1 /x"]).output := by
  decide

/-- C2 amended: the monitor emits VERSION 1 once in reply to each VERSION 1
command consumed from the parent, leaving the state unchanged; it does not
emit it at startup. -/
theorem c2_version_is_a_reply (canon : FsPath → Option FsPath) (m : Monitor) :
    handleEvent canon m (Event.input "VERSION 1") =
      StepResult.next m [sendCmd "VERSION" ["1"]] [] := by
  rfl

/-- C3 counterexample: the claim says a CHANGES command naming an unknown
replica id emits the unknown-replica ERROR and exits with status 1. In the
code the CHANGES arm silently skips a missing replica: the monitor answers
a bare DONE, keeps its state, and keeps running. -/
theorem c3_changes_unknown_is_not_fatal :
    runEvents canonNone [Event.input "CHANGES nope"] =
      { live := some initMonitor, output := ["DONE"], calls := [],
        exitCode := none } := by
  decide

/-- C3 amended: CHANGES on an id that was never STARTed or was RESET
drains nothing and answers only DONE with the state unchanged; it is WAIT
on such an id that emits ERROR Unknown replica and exits with status 1. -/
theorem c3_amended (canon : FsPath → Option FsPath) (m : Monitor) (id : String)
    (h : lookupA id m.replicas = none) :
    handleCmd canon m "CHANGES" [id] = StepResult.next m [sendCmd "DONE" []] [] ∧
    handleCmd canon m "WAIT" [id] =
      StepResult.errExit [sendCmd "ERROR" ["Unknown replica: " ++ id]] [] := by
  constructor
  · show handleChanges m [id] = _
    simp [handleChanges, h, updateA_eq_of_none]
  · show handleWait m [id] = _
    simp [handleWait, h]

/-- Witness for the amended C3 theorem at a concrete unknown id. -/
theorem c3_amended_witness :
    handleCmd canonNone initMonitor "CHANGES" ["nope"] =
      StepResult.next initMonitor [sendCmd "DONE" []] [] ∧
    handleCmd canonNone initMonitor "WAIT" ["nope"] =
      StepResult.errExit [sendCmd "ERROR" ["Unknown replica: " ++ "nope"]] [] :=
  c3_amended canonNone initMonitor "nope" rfl

/-- C4: the claim says decode after encode is the identity on every UTF-8
string, which requires the encoder to escape at least the space and percent
bytes. The SIMPLE encode set escapes neither, so the percent in a string
like percent-two-zero survives encoding and is then consumed by the
decoder: the round trip maps it to a single space. -/
theorem c4_roundtrip_fails :
    encodeBytes [32] = [32] ∧
    encodeBytes [37] = [37] ∧
    decodeBytes (encodeBytes [37, 50, 48]) = [32] ∧
    encodeStr "%20" = "%20" ∧
    decodeStr (encodeStr "%20") = " " ∧
    ("%20" : String) ≠ " " := by
  decide

/-- C5: after START a at the outer root and START b at the nested root, a
filesystem event below both roots is attributed to both replicas, one
CHANGES line each, and the subsequent queries report the path relative to
each root followed by DONE. The registry and the matched set are modelled
in insertion order; the source iterates HashMap and HashSet, so the parent
may observe the two CHANGES lines in either order. -/
theorem c5_overlapping_roots :
    (runEvents canonNone c5Script).output =
      ["OK", "OK", "CHANGES a", "CHANGES b",
       "RECURSIVE y/z", "DONE", "RECURSIVE z", "DONE"] ∧
    (runEvents canonNone c5Script).exitCode = none := by
  decide

/-- C7: the claim says a line whose verb requires an argument but carries
none is answered by an ERROR line and exit status 1. In the code every such
arm indexes args zero on an empty vector, so the dispatcher thread panics
before writing anything; no ERROR line is emitted and send_error is never
reached. -/
theorem c7_missing_argument_panics :
    handleEvent canonNone initMonitor (Event.input "VERSION") =
      StepResult.panicked [] [] ∧
    handleEvent canonNone initMonitor (Event.input "START") =
      StepResult.panicked [] [] ∧
    handleEvent canonNone initMonitor (Event.input "WAIT") =
      StepResult.panicked [] [] ∧
    handleEvent canonNone initMonitor (Event.input "CHANGES") =
      StepResult.panicked [] [] ∧
    handleEvent canonNone initMonitor (Event.input "RESET") =
      StepResult.panicked [] [] := by
  decide

/-- C8 counterexample: the claim says an unknown verb is answered by the
exact line ERROR Unexpected cmd followed by the verb. The code formats the
message with the word Unrecognized, not Unexpected. -/
theorem c8_message_is_unrecognized :
    handleEvent canonNone initMonitor (Event.input "FROB 1") =
      StepResult.errExit ["ERROR Unrecognized cmd: FROB"] [] ∧
    ("ERROR Unrecognized cmd: FROB" : String) ≠ "ERROR Unexpected cmd: FROB" := by
  decide

/-- C8 amended: a line whose verb is none of the known verbs is answered by
exactly the line ERROR Unrecognized cmd followed by the received verb, and
the process exits with status 1. -/
theorem c8_amended (canon : FsPath → Option FsPath) (m : Monitor)
    (cmd : String) (args : List String) (h : cmd ∉ knownCmds) :
    handleCmd canon m cmd args =
      StepResult.errExit [sendCmd "ERROR" ["Unrecognized cmd: " ++ cmd]] [] := by
  simp only [knownCmds, List.mem_cons, List.not_mem_nil, or_false, not_or] at h
  obtain ⟨h1, h2, h3, h4, h5, h6, h7, h8, h9⟩ := h
  unfold handleCmd
  split
  · exact absurd rfl h1
  · exact absurd rfl h2
  · exact absurd rfl h3
  · exact absurd rfl h4
  · exact absurd rfl h5
  · exact absurd rfl h6
  · exact absurd rfl h7
  · exact absurd rfl h8
  · exact absurd rfl h9
  · rfl

/-- Witness for the amended C8 theorem at a concrete unknown verb. -/
theorem c8_amended_witness :
    handleCmd canonNone initMonitor "FROB" ["1"] =
      StepResult.errExit [sendCmd "ERROR" ["Unrecognized cmd: " ++ "FROB"]] [] :=
  c8_amended canonNone initMonitor "FROB" ["1"] (by decide)

/-- C9: a first START for an unregistered id watches the decoded root and
records it as the single watched path; repeating the identical START leaves
the watched set at that single element and makes no further watch call,
because the existing watched path is a prefix of the current subtree. -/
theorem c9_start_idempotent (canon : FsPath → Option FsPath) (m : Monitor)
    (id r : String) (h : lookupA id m.replicas = none) :
    handleCmd canon m "START" [id, r] =
      StepResult.next (startFresh m id r) [sendCmd "OK" []]
        [WatchCall.watch (pathFromString r)] ∧
    handleCmd canon (startFresh m id r) "START" [id, r] =
      StepResult.next (startFresh m id r) [sendCmd "OK" []] [] ∧
    (lookupA id (startFresh m id r).replicas).map Replica.paths =
      some [pathFromString r] := by
  have hlook : lookupA id (startFresh m id r).replicas =
      some { root := pathFromString r, paths := [pathFromString r],
             pending_changes := [] } :=
    lookupA_append_right id m.replicas _ h
  have hcur : startCurrent r [] = pathFromString r := rfl
  refine ⟨?_, ?_, ?_⟩
  · show handleStart m [id, r] = _
    simp [handleStart, h, startFresh, hcur]
  · show handleStart (startFresh m id r) [id, r] = _
    have hw : Replica.is_watching
        { root := pathFromString r, paths := [pathFromString r],
          pending_changes := [] } (pathFromString r) = true := by
      simp [Replica.is_watching, isPrefixOf_self]
    simp only [handleStart, startFresh, hcur]
    rw [show lookupA id (m.replicas ++
        [(id, { root := pathFromString r, paths := [pathFromString r],
                pending_changes := [] })]) =
      some { root := pathFromString r, paths := [pathFromString r],
             pending_changes := [] } from lookupA_append_right id m.replicas _ h]
    simp [hw]
  · rw [hlook]
    rfl

/-- Witness for the C9 theorem at a concrete id and root. -/
theorem c9_start_idempotent_witness :
    handleCmd canonNone initMonitor "START" ["123", "/tmp/sample"] =
      StepResult.next (startFresh initMonitor "123" "/tmp/sample")
        [sendCmd "OK" []] [WatchCall.watch (pathFromString "/tmp/sample")] ∧
    handleCmd canonNone (startFresh initMonitor "123" "/tmp/sample") "START"
        ["123", "/tmp/sample"] =
      StepResult.next (startFresh initMonitor "123" "/tmp/sample")
        [sendCmd "OK" []] [] ∧
    (lookupA "123" (startFresh initMonitor "123" "/tmp/sample").replicas).map
        Replica.paths = some [pathFromString "/tmp/sample"] :=
  c9_start_idempotent canonNone initMonitor "123" "/tmp/sample" rfl

/-- C10: handling CHANGES id empties the pending set of replica id and
changes nothing else: the answer state keeps the current subtree and the
link map, the named replica keeps its root and watched set with its pending
set emptied, and every other id maps to exactly its previous replica. -/
theorem c10_changes_frame (canon : FsPath → Option FsPath) (m : Monitor)
    (id : String) :
    handleCmd canon m "CHANGES" [id] =
      StepResult.next
        { m with
          replicas :=
            updateA id (fun r => { r with pending_changes := [] }) m.replicas }
        ((((lookupA id m.replicas).map Replica.pending_changes).getD []).map
            (fun p => sendCmd "RECURSIVE" [pathToString p]) ++ [sendCmd "DONE" []])
        [] ∧
    lookupA id (updateA id (fun r => { r with pending_changes := [] }) m.replicas) =
      (lookupA id m.replicas).map (fun r => { r with pending_changes := [] }) ∧
    ∀ j, j ≠ id →
      lookupA j (updateA id (fun r => { r with pending_changes := [] }) m.replicas) =
        lookupA j m.replicas := by
  refine ⟨rfl, lookupA_updateA_self id _ m.replicas, ?_⟩
  intro j hj
  exact lookupA_updateA_ne j id hj _ m.replicas

/-- Witness for the C10 frame theorem: on a concrete two-replica registry,
draining replica a leaves the entry of replica b untouched. -/
theorem c10_changes_frame_witness :
    lookupA "b" (updateA "a" (fun r => { r with pending_changes := [] }) m10.replicas) =
      lookupA "b" m10.replicas :=
  (c10_changes_frame canonNone m10 "a").2.2 "b" (by decide)

/-- A successful VERSION step leaves the state unchanged. -/
theorem handleVersion_next {m m2 : Monitor} {args : List String}
    {out : List String} {calls : List WatchCall}
    (h : handleVersion m args = StepResult.next m2 out calls) : m2 = m := by
  unfold handleVersion at h
  split at h
  · exact StepResult.noConfusion h
  · split at h
    · injection h with h1 _ _
      exact h1.symm
    · exact StepResult.noConfusion h

/-- A successful WAIT step leaves the state unchanged. -/
theorem handleWait_next {m m2 : Monitor} {args : List String}
    {out : List String} {calls : List WatchCall}
    (h : handleWait m args = StepResult.next m2 out calls) : m2 = m := by
  unfold handleWait at h
  split at h
  · exact StepResult.noConfusion h
  · split at h
    · exact StepResult.noConfusion h
    · injection h with h1 _ _
      exact h1.symm

/-- A successful LINK step does not touch the registry. -/
theorem handleLink_replicas {canon : FsPath → Option FsPath} {m m2 : Monitor}
    {args : List String} {out : List String} {calls : List WatchCall}
    (h : handleLink canon m args = StepResult.next m2 out calls) :
    m2.replicas = m.replicas := by
  unfold handleLink at h
  split at h
  · exact StepResult.noConfusion h
  · injection h with h1 _ _
    rw [← h1]

/-- A successful CHANGES step empties the pending set of some id and does
nothing else. -/
theorem handleChanges_next {m m2 : Monitor} {args : List String}
    {out : List String} {calls : List WatchCall}
    (h : handleChanges m args = StepResult.next m2 out calls) :
    ∃ id, m2 =
      { m with
        replicas := updateA id (fun r => { r with pending_changes := [] }) m.replicas } := by
  unfold handleChanges at h
  split at h
  · exact StepResult.noConfusion h
  · injection h with h1 _ _
    exact ⟨_, h1.symm⟩

/-- A successful RESET step either finds no replica or filters one id out
of the registry. -/
theorem handleReset_next {m m2 : Monitor} {args : List String}
    {out : List String} {calls : List WatchCall}
    (h : handleReset m args = StepResult.next m2 out calls) :
    m2 = m ∨ ∃ id, m2 = resetRemaining m id := by
  unfold handleReset at h
  split at h
  · exact StepResult.noConfusion h
  · split at h
    · injection h with h1 _ _
      exact Or.inl h1.symm
    · injection h with h1 _ _
      exact Or.inr ⟨_, h1.symm⟩

/-- The watched-paths invariant only reads the registry. -/
theorem goodM_of_replicas_eq {m m2 : Monitor} (h : m2.replicas = m.replicas)
    (hg : GoodM m) : GoodM m2 := by
  intro pr hpr
  exact hg pr (h ▸ hpr)

/-- The root-table invariant only reads the registry. -/
theorem rootsOk_of_replicas_eq {R : List (String × String)} {m m2 : Monitor}
    (h : m2.replicas = m.replicas) (hr : RootsOk R m) : RootsOk R m2 := by
  intro pr hpr
  exact hr pr (h ▸ hpr)

/-- Both invariants survive emptying or refilling pending sets through an
update at one key, since roots and watched sets are untouched. -/
theorem inv_updateA_pending {R : List (String × String)} {m : Monitor}
    {id : String} {g : Replica → List FsPath}
    (hg : GoodM m) (hr : RootsOk R m) :
    GoodM { m with
      replicas := updateA id (fun r => { r with pending_changes := g r }) m.replicas } ∧
    RootsOk R { m with
      replicas := updateA id (fun r => { r with pending_changes := g r }) m.replicas } := by
  constructor
  · intro pr hpr p hp
    rcases mem_updateA hpr with hm | ⟨v, hv, hpr2⟩
    · exact hg pr hm p hp
    · subst hpr2
      exact hg (id, v) hv p hp
  · intro pr hpr
    rcases mem_updateA hpr with hm | ⟨v, hv, hpr2⟩
    · exact hr pr hm
    · subst hpr2
      exact hr (id, v) hv

/-- The subtree set by a START with a relative or absent subdir extends the
decoded root. -/
theorem startCurrent_pre (rootStr : String) (rest : List String)
    (hrel : (match rest.head? with
             | some d => !((pathFromString d).head? == some "/")
             | none => true) = true) :
    List.isPrefixOf (pathFromString rootStr) (startCurrent rootStr rest) = true := by
  cases hh : rest.head? with
  | none =>
    unfold startCurrent
    rw [hh]
    exact isPrefixOf_self _
  | some d =>
    unfold startCurrent
    rw [hh]
    have hne : (pathFromString d).head? ≠ some "/" := by
      intro e
      rw [hh] at hrel
      dsimp only at hrel
      rw [e] at hrel
      simp at hrel
    show List.isPrefixOf (pathFromString rootStr)
      (joinP (pathFromString rootStr) (pathFromString d)) = true
    unfold joinP
    rw [if_neg hne]
    exact isPrefixOf_app _ _

/-- Invariant preservation for the START arm, under the side condition that
the named root agrees with the root table and the subdir is relative. -/
theorem handleStart_inv {R : List (String × String)} {m m2 : Monitor}
    {args : List String} {out : List String} {calls : List WatchCall}
    (hg : GoodM m) (hr : RootsOk R m)
    (hok : startArgsOk R args = true)
    (h : handleStart m args = StepResult.next m2 out calls) :
    GoodM m2 ∧ RootsOk R m2 := by
  unfold handleStart at h
  split at h
  case h_2 => exact StepResult.noConfusion h
  case h_1 id rootStr rest =>
    unfold startArgsOk at hok
    rw [Bool.and_eq_true] at hok
    obtain ⟨hok1, hok2⟩ := hok
    have hRid : lookupA id R = some rootStr := eq_of_beq hok1
    have hpre : List.isPrefixOf (pathFromString rootStr)
        (startCurrent rootStr rest) = true := startCurrent_pre rootStr rest hok2
    split at h
    · -- the id is fresh: append a new replica watching the current subtree
      injection h with h1 _ _
      subst h1
      constructor
      · intro pr hpr p hp
        rcases List.mem_append.mp hpr with hm | hm
        · exact hg pr hm p hp
        · rw [List.mem_singleton] at hm
          subst hm
          rw [List.mem_singleton] at hp
          subst hp
          exact hpre
      · intro pr hpr
        rcases List.mem_append.mp hpr with hm | hm
        · exact hr pr hm
        · rw [List.mem_singleton] at hm
          subst hm
          show (lookupA id R).map pathFromString = some (pathFromString rootStr)
          rw [hRid]
          rfl
    · -- the id exists; name the found replica for the root table argument
      rename_i rep hlook
      split at h
      · -- already watching: registry unchanged
        injection h with h1 _ _
        subst h1
        exact ⟨goodM_of_replicas_eq rfl hg, rootsOk_of_replicas_eq rfl hr⟩
      · -- not watching: the current subtree joins the watched set
        injection h with h1 _ _
        subst h1
        constructor
        · intro pr hpr p hp
          rcases mem_updateA hpr with hm | ⟨v, hv, hpr2⟩
          · exact hg pr hm p hp
          · subst hpr2
            rcases mem_insertPath hp with hp2 | hp2
            · exact hg (id, v) hv p hp2
            · subst hp2
              have hvroot : v.root = pathFromString rootStr := by
                have hx := hr (id, v) hv
                rw [hRid] at hx
                exact (Option.some.injEq _ _ ▸ hx :
                  pathFromString rootStr = v.root).symm
              show List.isPrefixOf v.root (startCurrent rootStr rest) = true
              rw [hvroot]
              exact hpre
        · intro pr hpr
          rcases mem_updateA hpr with hm | ⟨v, hv, hpr2⟩
          · exact hr pr hm
          · subst hpr2
            exact hr (id, v) hv

/-- Invariant preservation for the filesystem event arm: only pending sets
change. -/
theorem handleFs_inv {R : List (String × String)} {m m2 : Monitor}
    {p? : Option FsPath} {out : List String} {calls : List WatchCall}
    (hg : GoodM m) (hr : RootsOk R m)
    (h : handleFs m p? = StepResult.next m2 out calls) :
    GoodM m2 ∧ RootsOk R m2 := by
  unfold handleFs at h
  split at h
  · injection h with h1 _ _
    subst h1
    exact ⟨hg, hr⟩
  · injection h with h1 _ _
    subst h1
    constructor
    · intro pr hpr p hp
      rw [List.map_map] at hpr
      obtain ⟨pr0, hpr0, hpr1⟩ := List.mem_map.mp hpr
      subst hpr1
      exact hg pr0 hpr0 p hp
    · intro pr hpr
      rw [List.map_map] at hpr
      obtain ⟨pr0, hpr0, hpr1⟩ := List.mem_map.mp hpr
      subst hpr1
      exact hr pr0 hpr0

/-- Invariant preservation for one dispatched command line. -/
theorem handleCmd_inv {canon : FsPath → Option FsPath}
    {R : List (String × String)} {m m2 : Monitor} {cmd : String}
    {args : List String} {out : List String} {calls : List WatchCall}
    (hg : GoodM m) (hr : RootsOk R m)
    (hok : startOkB R cmd args = true)
    (h : handleCmd canon m cmd args = StepResult.next m2 out calls) :
    GoodM m2 ∧ RootsOk R m2 := by
  unfold handleCmd at h
  split at h
  · obtain rfl := handleVersion_next h
    exact ⟨hg, hr⟩
  · have hok2 : startArgsOk R args = true := by simpa [startOkB] using hok
    exact handleStart_inv hg hr hok2 h
  · injection h with h1 _ _
    subst h1
    exact ⟨hg, hr⟩
  · exact ⟨goodM_of_replicas_eq (handleLink_replicas h) hg,
      rootsOk_of_replicas_eq (handleLink_replicas h) hr⟩
  · obtain rfl := handleWait_next h
    exact ⟨hg, hr⟩
  · obtain ⟨id, rfl⟩ := handleChanges_next h
    exact inv_updateA_pending hg hr
  · rcases handleReset_next h with rfl | ⟨id, rfl⟩
    · exact ⟨hg, hr⟩
    · constructor
      · intro pr hpr p hp
        exact hg pr (List.mem_of_mem_filter hpr) p hp
      · intro pr hpr
        exact hr pr (List.mem_of_mem_filter hpr)
  · injection h with h1 _ _
    subst h1
    exact ⟨hg, hr⟩
  · injection h with h1 _ _
    subst h1
    exact ⟨hg, hr⟩
  · exact StepResult.noConfusion h

/-- Invariant preservation for one dispatched event. -/
theorem handleEvent_inv {canon : FsPath → Option FsPath}
    {R : List (String × String)} {m m2 : Monitor} {e : Event}
    {out : List String} {calls : List WatchCall}
    (hg : GoodM m) (hr : RootsOk R m)
    (hok : eventOkB R e = true)
    (h : handleEvent canon m e = StepResult.next m2 out calls) :
    GoodM m2 ∧ RootsOk R m2 := by
  cases e with
  | input line => exact handleCmd_inv hg hr hok h
  | fsevent p? => exact handleFs_inv hg hr h

/-- Both invariants hold in every live state reached by folding the
dispatcher over a side-condition-respecting event list from any
invariant-satisfying run state. -/
theorem runEvents_aux (canon : FsPath → Option FsPath)
    (R : List (String × String)) :
    ∀ events : List Event, (∀ e ∈ events, eventOkB R e = true) →
      ∀ r0 : RunResult,
        (∀ m0, r0.live = some m0 → GoodM m0 ∧ RootsOk R m0) →
        ∀ m, (events.foldl (runStep canon) r0).live = some m →
          GoodM m ∧ RootsOk R m := by
  intro events
  induction events with
  | nil =>
    intro _ r0 h0 m hm
    exact h0 m hm
  | cons e es ih =>
    intro h r0 h0 m hm
    rw [List.foldl_cons] at hm
    refine ih (fun e2 he2 => h e2 (List.mem_cons_of_mem _ he2))
      (runStep canon r0 e) ?_ m hm
    intro m0 hm0
    unfold runStep at hm0
    cases hl : r0.live with
    | none =>
      rw [hl] at hm0
      dsimp only at hm0
      rw [hl] at hm0
      exact Option.noConfusion hm0
    | some mp =>
      rw [hl] at hm0
      dsimp only at hm0
      cases hh : handleEvent canon mp e with
      | next m2 out calls =>
        rw [hh] at hm0
        obtain rfl : m2 = m0 := Option.some.inj hm0
        exact handleEvent_inv (h0 mp hl).1 (h0 mp hl).2
          (h e (List.mem_cons_self _ _)) hh
      | errExit out calls =>
        rw [hh] at hm0
        exact Option.noConfusion hm0
      | propErr out calls =>
        rw [hh] at hm0
        exact Option.noConfusion hm0
      | panicked out calls =>
        rw [hh] at hm0
        exact Option.noConfusion hm0

/-- The Boolean invariant checker agrees with the propositional invariant. -/
theorem goodPathsB_eq_true_iff (m : Monitor) : goodPathsB m = true ↔ GoodM m := by
  unfold goodPathsB GoodM
  simp [List.all_eq_true]

/-- C6 counterexample: the claim quantifies over all dispatched sequences,
including a repeated START reusing an existing replica id with a different
root. The code keeps the old root but still inserts the new, unrelated path
into the watched set, so the reached state violates the prefix invariant. -/
theorem c6_invariant_fails_on_changed_root :
    (runEvents canonNone c6BadTrace).live = some c6BadState ∧
    goodPathsB c6BadState = false := by
  decide

/-- C6 amended: fix a table R assigning one root string to each id; for
every dispatched event sequence in which each START names the root assigned
to its id (so repeated STARTs for an id reuse the same root) and each START
subdir argument is a relative path, every element of every replica's
watched-paths set in every live reachable state has that replica's root as
a path prefix. -/
theorem c6_watched_paths_invariant (canon : FsPath → Option FsPath)
    (R : List (String × String)) (events : List Event)
    (h : ∀ e ∈ events, eventOkB R e = true)
    (m : Monitor) (hm : (runEvents canon events).live = some m) :
    goodPathsB m = true := by
  rw [goodPathsB_eq_true_iff]
  refine (runEvents_aux canon R events h
    { live := some initMonitor, output := [], calls := [], exitCode := none }
    ?_ m hm).1
  intro m0 hm0
  obtain rfl : initMonitor = m0 := Option.some.inj hm0
  constructor
  · intro pr hpr
    exact absurd hpr (List.not_mem_nil pr)
  · intro pr hpr
    exact absurd hpr (List.not_mem_nil pr)

/-- Witness for the amended C6 theorem on a one-START trace respecting the
root table. -/
theorem c6_watched_paths_invariant_witness : goodPathsB c6WitState = true :=
  c6_watched_paths_invariant canonNone [("a", "/x")]
    [Event.input "START a /x"] (by decide) c6WitState (by decide)
